import Mathlib

/-!
gokit: array utilities and the named stopwatch

A shallow embedding of `array/array.go` and `stopwatch/stopwatch.go`.

Modelling conventions

* A Go slice is a `List`; the nil slice and the empty slice are both `[]`.
* Go `int`, `time.Duration` and `time.Time` values are unbounded `Int`s (times and
  durations in nanoseconds); the 64-bit range is not modelled.  In `ArrayChunk` the
  only sums are `i + size` with `i = 0`, or with `size ≤ i < len(arr)`, so they are
  at most `max size (2 * len(arr))`; durations are sums of elapsed clock intervals.
* A Go map used only for key membership (`map[T]struct{}`, `map[T]bool`) is the list
  of its keys in insertion order; element types are those with decidable equality.
* The clock is an explicit argument of every operation that reads it, one reading
  per clock read of the source: `Start` takes two readings (`time.Since`, then
  `time.Now`), `StopAll` one reading per timer.
* Operations are state transformers.  A method body that runs between `s.mu.Lock()`
  and the deferred `Unlock()` is one indivisible step; `Stats` takes no lock of its
  own, so it is its call of `StopAll` followed by the unlocked loop `statsReport`.
-/

namespace Gokit

variable {α : Type}

/-! ## array/array.go -/

/-- Go slice expression `arr[lo:hi]`, for bounds `lo ≤ hi ≤ len(arr)`. -/
def slice (arr : List α) (lo hi : Nat) : List α :=
  (arr.take hi).drop lo

/-- The `for i := 0; i < len(arr); i += size` loop of `ArrayChunk`, from loop state
`(i, chunks)`.  One unit of fuel is spent per evaluation of the loop condition;
`none` means the fuel ran out before the loop exited. -/
def chunkLoop (arr : List α) (size : Int) :
    Nat → Int → List (List α) → Option (List (List α))
  | 0, _, _ => none
  | fuel + 1, i, chunks =>
    if i < (arr.length : Int) then
      let e := i + size
      let e := if e > (arr.length : Int) then (arr.length : Int) else e
      chunkLoop arr size fuel (i + size) (chunks ++ [slice arr i.toNat e.toNat])
    else
      some chunks

/-- `ArrayChunk(arr, size)`.  The loop is given `len(arr) + 1` units of fuel. -/
def ArrayChunk (arr : List α) (size : Int) : Option (List (List α)) :=
  if size ≤ 0 then
    some []
  else
    chunkLoop arr size (arr.length + 1) 0 []

/-- Key lookup `_, ok := m[k]` on a map used as a set. -/
def mapHas [DecidableEq α] (m : List α) (k : α) : Bool :=
  decide (k ∈ m)

/-- Key insertion `m[k] = v` on a map used as a set. -/
def mapPut [DecidableEq α] (m : List α) (k : α) : List α :=
  if k ∈ m then m else m ++ [k]

/-- Body of the range loop of `ArrayUnique` on loop state `(inResult, result)`. -/
def uniqueStep [DecidableEq α] (st : List α × List α) (str : α) : List α × List α :=
  if !(mapHas st.1 str) then
    (mapPut st.1 str, st.2 ++ [str])
  else
    st

/-- `ArrayUnique(arr)`. -/
def ArrayUnique [DecidableEq α] (arr : List α) : List α :=
  (arr.foldl uniqueStep ([], [])).2

/-- The second loop of `IsArrayIntersect`, which returns at the first hit. -/
def intersectScan [DecidableEq α] (s : List α) : List α → Bool
  | [] => false
  | v :: rest => if mapHas s v then true else intersectScan s rest

/-- `IsArrayIntersect(arr1, arr2)`. -/
def IsArrayIntersect [DecidableEq α] (arr1 arr2 : List α) : Bool :=
  let s := arr1.foldl mapPut []
  intersectScan s arr2

/-- `ArrayIntersection(arr1, arr2)`. -/
def ArrayIntersection [DecidableEq α] (arr1 arr2 : List α) : List α :=
  let set := arr1.foldl mapPut []
  let intersection := arr2.foldl (fun acc v => if mapHas set v then acc ++ [v] else acc) []
  ArrayUnique intersection

/-- `ArrayUnion(arr1, arr2)`. -/
def ArrayUnion [DecidableEq α] (arr1 arr2 : List α) : List α :=
  ArrayUnique (arr1 ++ arr2)

/-- `ArrayDifference(arr1, arr2)`. -/
def ArrayDifference [DecidableEq α] (arr1 arr2 : List α) : List α :=
  let set := arr2.foldl mapPut []
  arr1.foldl (fun difference v => if !(mapHas set v) then difference ++ [v] else difference) []

/-- The swap callback of `ArrayShuffle`: `newArr[i], newArr[j] = newArr[j], newArr[i]`.
An index outside the slice is a run-time failure, `none`. -/
def swapAt (newArr : List α) (i j : Nat) : Option (List α) :=
  match newArr[i]?, newArr[j]? with
  | some x, some y => some ((newArr.set i y).set j x)
  | _, _ => none

/-- Runs the swap callback on each index pair in turn. -/
def applySwaps : List α → List (Nat × Nat) → Option (List α)
  | newArr, [] => some newArr
  | newArr, (i, j) :: rest =>
    match swapAt newArr i j with
    | some next => applySwaps next rest
    | none => none

/-- `ArrayShuffle(arr)`.  `rand.Shuffle` belongs to the Go library; what it does with
the random source is the list `swaps` of index pairs it passes to the callback. -/
def ArrayShuffle (arr : List α) (swaps : List (Nat × Nat)) : Option (List α) :=
  applySwaps arr swaps

/-- Spec-side definition for `ArrayUnique`: the values at the positions `i` of `arr`
whose value does not occur at any position before `i`, in order. -/
def firstOccurrences [DecidableEq α] (arr : List α) : List α :=
  (List.range arr.length).filterMap fun i =>
    match arr[i]? with
    | some x => if x ∈ arr.take i then none else some x
    | none => none

/-! ## stopwatch/stopwatch.go -/

/-- The `timer` struct. -/
structure timer where
  name : String
  startTime : Int
  duration : Int
  running : Bool
  count : Int
  deriving DecidableEq, Repr

/-- The `Stopwatch` struct: `timers` is the map as a list of its entries, each key
bound to the timer its pointer refers to. -/
structure Stopwatch where
  timers : List (String × timer)
  orderNames : List String
  deriving DecidableEq, Repr

/-- `New()`. -/
def New : Stopwatch :=
  { timers := [], orderNames := [] }

/-- Map read `t, exists := s.timers[name]`. -/
def getTimer (m : List (String × timer)) (name : String) : Option timer :=
  m.lookup name

/-- Map write `s.timers[name] = t`, also used to write back a timer changed through
its pointer. -/
def setTimer (m : List (String × timer)) (name : String) (t : timer) :
    List (String × timer) :=
  if (getTimer m name).isSome then
    m.map fun p => if p.1 = name then (p.1, t) else p
  else
    m ++ [(name, t)]

/-- `time.Since(start)` when the clock reads `now`. -/
def since (now start : Int) : Int :=
  now - start

/-- `Stop(name)` when the clock reads `now`: the new registry and the returned
duration. -/
def Stopwatch.Stop (s : Stopwatch) (name : String) (now : Int) : Stopwatch × Int :=
  match getTimer s.timers name with
  | none => (s, 0)
  | some t =>
    if !t.running then
      (s, 0)
    else
      let elapsed := since now t.startTime
      let t := { t with duration := t.duration + elapsed }
      let t := { t with running := false }
      let t := { t with count := t.count + 1 }
      ({ s with timers := setTimer s.timers name t }, t.duration)

/-- A registry with a running timer `a` (started at 10, 5 accumulated, 2 stops) and a
stopped timer `b`. -/
def exampleRegistry : Stopwatch :=
  Stopwatch.mk [("a", timer.mk "a" 10 5 true 2), ("b", timer.mk "b" 0 7 false 1)] ["a", "b"]

/-- `Start(name)`.  The call reads the clock twice: `nowSince` is the reading inside
`time.Since(t.startTime)`, taken only when the timer is running, and `now` is the
later reading of `time.Now()`. -/
def Stopwatch.Start (s : Stopwatch) (name : String) (nowSince now : Int) : Stopwatch :=
  let st : timer × Stopwatch :=
    match getTimer s.timers name with
    | some t => (t, s)
    | none =>
      let t := timer.mk name 0 0 false 0
      (t, Stopwatch.mk (setTimer s.timers name t) (s.orderNames ++ [name]))
  let t := st.1
  let s := st.2
  let t := if t.running then { t with duration := t.duration + since nowSince t.startTime } else t
  let t := { t with startTime := now }
  let t := { t with running := true }
  { s with timers := setTimer s.timers name t }

/-- Body of the range loop of `StopAll` on one timer, when the clock reads `now`. -/
def stopAllTimer (t : timer) (now : Int) : timer :=
  if t.running then
    let elapsed := since now t.startTime
    let t := { t with duration := t.duration + elapsed }
    let t := { t with running := false }
    { t with count := t.count + 1 }
  else
    t

/-- `StopAll()`: the new registry and the returned map, as the list of its entries.
Every iteration on a running timer reads the clock; `clock name` is the reading taken
in the iteration for `name`. -/
def Stopwatch.StopAll (s : Stopwatch) (clock : String → Int) :
    Stopwatch × List (String × Int) :=
  let timers := s.timers.map fun p => (p.1, stopAllTimer p.2 (clock p.1))
  ({ s with timers := timers }, timers.map fun p => (p.1, p.2.duration))

/-- `Reset()`. -/
def Stopwatch.Reset (_s : Stopwatch) : Stopwatch :=
  { timers := [], orderNames := [] }

/-- `GetDuration(name)` when the clock reads `now`: the registry after the call and
the returned duration. -/
def Stopwatch.GetDuration (s : Stopwatch) (name : String) (now : Int) : Stopwatch × Int :=
  match getTimer s.timers name with
  | none => (s, 0)
  | some t =>
    if t.running then
      (s, t.duration + since now t.startTime)
    else
      (s, t.duration)

/-- `GetTimerStats(name)` when the clock reads `now`: the registry after the call and
`(count, total, avg)`.  Go integer division truncates toward zero. -/
def Stopwatch.GetTimerStats (s : Stopwatch) (name : String) (now : Int) :
    Stopwatch × (Int × Int × Int) :=
  match getTimer s.timers name with
  | none => (s, (0, 0, 0))
  | some t =>
    let total := t.duration
    let total := if t.running then total + since now t.startTime else total
    let count := t.count
    let avg := if count > 0 then Int.tdiv total count else 0
    (s, (count, total, avg))

/-- The part of `Stats()` that follows its call of `StopAll()`: the string builder
loop over `s.orderNames`.  `fmt` is the library rendering `%v` of a `time.Duration`;
`%d` of an `int` is its decimal representation. -/
def Stopwatch.statsReport (s : Stopwatch) (fmt : Int → String) : String :=
  s.orderNames.foldl
    (fun sb name =>
      match getTimer s.timers name with
      | none => sb
      | some t =>
        if t.count ≤ 1 then
          sb ++ ("  " ++ name ++ ": " ++ fmt t.duration ++ "\n")
        else
          let avg := Int.tdiv t.duration t.count
          sb ++ ("  " ++ name ++ ": count=" ++ toString t.count ++ ", total=" ++
            fmt t.duration ++ ", avg=" ++ fmt avg ++ "\n"))
    "Stopwatch Results:\n"

/-- `Stats()`: the registry after the call and the returned text. -/
def Stopwatch.Stats (s : Stopwatch) (clock : String → Int) (fmt : Int → String) :
    Stopwatch × String :=
  let s := (s.StopAll clock).1
  (s, s.statsReport fmt)

/-- A call of one public operation, with the clock readings it takes. -/
inductive Op where
  | start (name : String) (nowSince now : Int)
  | stop (name : String) (now : Int)
  | stopAll (clock : String → Int)
  | reset
  | getDuration (name : String) (now : Int)
  | getTimerStats (name : String) (now : Int)
  | stats (clock : String → Int) (fmt : Int → String)

/-- The registry after one call. -/
def Stopwatch.step (s : Stopwatch) : Op → Stopwatch
  | Op.start name nowSince now => s.Start name nowSince now
  | Op.stop name now => (s.Stop name now).1
  | Op.stopAll clock => (s.StopAll clock).1
  | Op.reset => s.Reset
  | Op.getDuration name now => (s.GetDuration name now).1
  | Op.getTimerStats name now => (s.GetTimerStats name now).1
  | Op.stats clock fmt => (s.Stats clock fmt).1

/-- The registry after a sequence of calls. -/
def Stopwatch.run (s : Stopwatch) (ops : List Op) : Stopwatch :=
  ops.foldl Stopwatch.step s

/-- Spec-side: the names passed to `Start` since the last `Reset`, in call order. -/
def startedSinceReset (ops : List Op) : List String :=
  ops.foldl
    (fun acc op =>
      match op with
      | Op.start name _ _ => acc ++ [name]
      | Op.reset => []
      | _ => acc)
    []

/-- Spec-side: the line of the report for a timer, in the two formats of the spec. -/
def reportLine (fmt : Int → String) (name : String) (t : timer) : String :=
  if t.count ≤ 1 then
    "  " ++ name ++ ": " ++ fmt t.duration ++ "\n"
  else
    "  " ++ name ++ ": count=" ++ toString t.count ++ ", total=" ++ fmt t.duration ++
      ", avg=" ++ fmt (Int.tdiv t.duration t.count) ++ "\n"

/-- A rendering of durations used in examples: the number of nanoseconds. -/
def fmtNanos (d : Int) : String :=
  toString d ++ "ns"

/-! ## ArrayChunk -/

theorem slice_length (arr : List α) (lo hi : Nat) (h : hi ≤ arr.length) :
    (slice arr lo hi).length = hi - lo := by
  simp [slice, List.length_drop, List.length_take, Nat.min_eq_left h]

theorem slice_append_drop (arr : List α) (lo hi : Nat) (h1 : lo ≤ hi)
    (h2 : hi ≤ arr.length) : slice arr lo hi ++ arr.drop hi = arr.drop lo := by
  have hlen : lo ≤ (arr.take hi).length := by
    rw [List.length_take, Nat.min_eq_left h2]; exact h1
  have h : (arr.take hi ++ arr.drop hi).drop lo = (arr.take hi).drop lo ++ arr.drop hi :=
    List.drop_append_of_le_length hlen
  rw [List.take_append_drop] at h
  exact h.symm

/-- Loop invariant of `chunkLoop`: with fuel for the remaining iterations the loop
exits, and the chunks it appends cover `arr` from index `i` on. -/
theorem chunkLoop_spec (arr : List α) (size : Int) (hs : 0 < size) :
    ∀ (fuel : Nat) (i : Int) (chunks : List (List α)), 0 ≤ i →
      (arr.length : Int) - i < fuel → 0 < fuel →
      ∃ tail, chunkLoop arr size fuel i chunks = some (chunks ++ tail) ∧
        tail.flatten = arr.drop i.toNat ∧
        ((arr.length : Int) ≤ i → tail = []) ∧
        (∀ c ∈ tail, 1 ≤ c.length ∧ (c.length : Int) ≤ size) ∧
        (∀ c ∈ tail.dropLast, (c.length : Int) = size) := by
  intro fuel
  induction fuel with
  | zero =>
    intro i chunks hi hf hpos
    omega
  | succ fuel ih =>
    intro i chunks hi hf _
    by_cases h : i < (arr.length : Int)
    · obtain ⟨tail, hrun, hflat, hnil, hlen, hfull⟩ :=
        ih (i + size) (chunks ++ [slice arr i.toNat
          (if i + size > (arr.length : Int) then (arr.length : Int) else i + size).toNat])
          (by omega) (by push_cast at hf ⊢; omega) (by push_cast at hf; omega)
      refine ⟨slice arr i.toNat
          (if i + size > (arr.length : Int) then (arr.length : Int) else i + size).toNat :: tail,
          ?_, ?_, ?_, ?_, ?_⟩
      · simp only [chunkLoop, if_pos h]
        rw [hrun]; simp
      · rw [List.flatten_cons, hflat]
        by_cases hov : i + size > (arr.length : Int)
        · rw [if_pos hov]
          have : arr.drop (i + size).toNat = [] := by
            apply List.drop_eq_nil_of_le; omega
          rw [this, List.append_nil]
          simp [slice]
        · rw [if_neg hov]
          exact slice_append_drop arr _ _ (by omega) (by omega)
      · intro hle; omega
      · have hc : 1 ≤ (slice arr i.toNat
            (if i + size > (arr.length : Int) then (arr.length : Int) else i + size).toNat).length ∧
            ((slice arr i.toNat
            (if i + size > (arr.length : Int) then (arr.length : Int) else i + size).toNat).length
              : Int) ≤ size := by
          rw [slice_length _ _ _ (by split <;> omega)]
          split <;> omega
        intro c hcm
        rcases List.mem_cons.mp hcm with rfl | hcm
        · exact hc
        · exact hlen c hcm
      · intro c hcm
        cases tail with
        | nil => simp at hcm
        | cons t ts =>
          rw [List.dropLast_cons₂] at hcm
          rcases List.mem_cons.mp hcm with rfl | hcm
          · have hlt : ¬ (arr.length : Int) ≤ i + size := by
              intro hle
              have := hnil hle
              simp at this
            rw [if_neg (by omega), slice_length _ _ _ (by omega)]
            omega
          · exact hfull c hcm
    · refine ⟨[], ?_, ?_, ?_, ?_, ?_⟩
      · simp [chunkLoop, h]
      · simp; omega
      · intro _; rfl
      · simp
      · simp

/-- For a positive size `ArrayChunk` returns the chunks appended by its loop from
the initial state. -/
theorem ArrayChunk_pos (arr : List α) (size : Int) (hs : 0 < size) :
    ∃ chunks, ArrayChunk arr size = some chunks ∧
      chunks.flatten = arr ∧
      (∀ c ∈ chunks, 1 ≤ c.length ∧ (c.length : Int) ≤ size) ∧
      (∀ c ∈ chunks.dropLast, (c.length : Int) = size) := by
  obtain ⟨tail, hrun, hflat, _, hlen, hfull⟩ :=
    chunkLoop_spec arr size hs (arr.length + 1) 0 [] (le_refl 0)
      (by push_cast; omega) (by omega)
  refine ⟨tail, ?_, ?_, hlen, hfull⟩
  · simp only [ArrayChunk, if_neg (not_le.mpr hs)]
    simpa using hrun
  · simpa using hflat

/-- C1: for every `arr` and every `size > 0`, `ArrayChunk(arr, size)` returns chunks
whose concatenation in order is `arr`; every chunk except the last has length exactly
`size`, and the last chunk, when there is one, has length between 1 and `size`. -/
theorem ArrayChunk_concat_and_lengths (arr : List α) (size : Int) (hs : 0 < size) :
    ∃ chunks, ArrayChunk arr size = some chunks ∧
      chunks.flatten = arr ∧
      (∀ (k : Nat) (c : List α), k + 1 < chunks.length → chunks[k]? = some c →
        (c.length : Int) = size) ∧
      (∀ c, chunks.getLast? = some c → 1 ≤ c.length ∧ (c.length : Int) ≤ size) := by
  obtain ⟨chunks, hrun, hflat, hlen, hfull⟩ := ArrayChunk_pos arr size hs
  refine ⟨chunks, hrun, hflat, ?_, ?_⟩
  · intro k c hk hc
    apply hfull
    have hk2 : k < chunks.dropLast.length := by
      rw [List.length_dropLast]; omega
    have hget : chunks.dropLast[k] = c := by
      rw [List.getElem_dropLast]
      have hin : k < chunks.length := by omega
      rw [List.getElem?_eq_getElem hin] at hc
      exact Option.some.inj hc
    rw [← hget]
    exact List.getElem_mem hk2
  · intro c hc
    exact hlen c (List.mem_of_getLast?_eq_some hc)

theorem ArrayChunk_concat_and_lengths_witness :
    (0 : Int) < 3 ∧
    ∃ chunks, ArrayChunk [1, 2, 3, 4, 5, 6, 7, 8, 9, 10] 3 = some chunks ∧
      chunks.flatten = [1, 2, 3, 4, 5, 6, 7, 8, 9, 10] ∧
      (∀ (k : Nat) (c : List Nat), k + 1 < chunks.length → chunks[k]? = some c →
        (c.length : Int) = 3) ∧
      (∀ c, chunks.getLast? = some c → 1 ≤ c.length ∧ (c.length : Int) ≤ 3) :=
  ⟨by decide, ArrayChunk_concat_and_lengths [1, 2, 3, 4, 5, 6, 7, 8, 9, 10] 3 (by decide)⟩

/-- C2: for every `arr` and every `size ≤ 0`, `ArrayChunk(arr, size)` returns the
empty result; for `size > 0` the result is empty exactly when `arr` is empty. -/
theorem ArrayChunk_empty_result (arr : List α) (size : Int) :
    (size ≤ 0 → ArrayChunk arr size = some []) ∧
    (0 < size → ∃ chunks, ArrayChunk arr size = some chunks ∧ (chunks = [] ↔ arr = [])) := by
  constructor
  · intro h
    simp [ArrayChunk, h]
  · intro hs
    obtain ⟨chunks, hrun, hflat, hlen, _⟩ := ArrayChunk_pos arr size hs
    refine ⟨chunks, hrun, ?_, ?_⟩
    · intro h
      rw [← hflat, h]
      rfl
    · intro h
      cases chunks with
      | nil => rfl
      | cons c cs =>
        have h1 := (hlen c (List.mem_cons_self c cs)).1
        rw [h] at hflat
        have h2 : c = [] := by
          rw [List.flatten_cons] at hflat
          exact (List.append_eq_nil.mp hflat).1
        rw [h2] at h1
        simp at h1

theorem ArrayChunk_empty_result_witness :
    ArrayChunk [1, 2, 3] (-1) = some [] ∧
    ∃ chunks, ArrayChunk ([] : List Nat) 2 = some chunks ∧
      (chunks = [] ↔ ([] : List Nat) = []) :=
  ⟨(ArrayChunk_empty_result [1, 2, 3] (-1)).1 (by decide),
    (ArrayChunk_empty_result ([] : List Nat) 2).2 (by decide)⟩

/-! ## ArrayUnique -/

theorem mapHas_eq_true [DecidableEq α] (m : List α) (k : α) :
    mapHas m k = true ↔ k ∈ m := by
  simp [mapHas]

theorem mem_mapPut [DecidableEq α] (m : List α) (k x : α) :
    x ∈ mapPut m k ↔ x ∈ m ∨ x = k := by
  unfold mapPut
  split
  · constructor
    · intro h; exact Or.inl h
    · rintro (h | rfl)
      · exact h
      · assumption
  · simp

theorem mem_foldl_mapPut [DecidableEq α] (l : List α) :
    ∀ (init : List α) (x : α), x ∈ l.foldl mapPut init ↔ x ∈ init ∨ x ∈ l := by
  induction l with
  | nil => intro init x; simp
  | cons a l ih =>
    intro init x
    rw [List.foldl_cons, ih, mem_mapPut, List.mem_cons]
    tauto

theorem firstOccurrences_snoc [DecidableEq α] (p : List α) (x : α) :
    firstOccurrences (p ++ [x]) = firstOccurrences p ++ (if x ∈ p then [] else [x]) := by
  unfold firstOccurrences
  rw [List.length_append, List.length_singleton, List.range_succ, List.filterMap_append]
  congr 1
  · apply List.filterMap_congr
    intro i hi
    have hi2 : i < p.length := List.mem_range.mp hi
    rw [List.getElem?_append_left hi2, List.take_append_of_le_length (le_of_lt hi2)]
  · have h1 : (p ++ [x])[p.length]? = some x := by simp
    have h2 : List.take p.length (p ++ [x]) = p := by simp
    simp only [List.filterMap_cons, List.filterMap_nil, h1, h2]
    by_cases hx : x ∈ p <;> simp [hx]

theorem uniqueStep_eq [DecidableEq α] (st : List α × List α) (x : α) :
    uniqueStep st x = if x ∈ st.1 then st else (mapPut st.1 x, st.2 ++ [x]) := by
  unfold uniqueStep
  by_cases h : x ∈ st.1 <;> simp [mapHas, h]

/-- Loop invariant of `ArrayUnique` after the loop has consumed `arr`. -/
theorem uniqueFold_inv [DecidableEq α] (arr : List α) :
    (∀ x, x ∈ (arr.foldl uniqueStep ([], [])).1 ↔ x ∈ arr) ∧
    (arr.foldl uniqueStep ([], [])).2 = firstOccurrences arr ∧
    ((arr.foldl uniqueStep ([], [])).2).Sublist arr ∧
    ((arr.foldl uniqueStep ([], [])).2).Nodup ∧
    (∀ x, x ∈ (arr.foldl uniqueStep ([], [])).2 ↔ x ∈ arr) := by
  induction arr using List.reverseRecOn with
  | nil => simp [firstOccurrences]
  | append_singleton p a ih =>
    obtain ⟨hseen, hfirst, hsub, hnd, hmem⟩ := ih
    rw [List.foldl_append, List.foldl_cons, List.foldl_nil, uniqueStep_eq,
      firstOccurrences_snoc]
    by_cases ha : a ∈ p
    · have ha1 : a ∈ (p.foldl uniqueStep ([], [])).1 := (hseen a).mpr ha
      rw [if_pos ha1, if_pos ha]
      refine ⟨?_, ?_, ?_, hnd, ?_⟩
      · intro x; rw [hseen, List.mem_append, List.mem_singleton]
        constructor
        · intro h; exact Or.inl h
        · rintro (h | rfl)
          · exact h
          · exact ha
      · rw [hfirst, List.append_nil]
      · exact hsub.trans (List.sublist_append_left p [a])
      · intro x; rw [hmem, List.mem_append, List.mem_singleton]
        constructor
        · intro h; exact Or.inl h
        · rintro (h | rfl)
          · exact h
          · exact ha
    · have ha1 : a ∉ (p.foldl uniqueStep ([], [])).1 := fun h => ha ((hseen a).mp h)
      rw [if_neg ha1, if_neg ha]
      refine ⟨?_, ?_, ?_, ?_, ?_⟩
      · intro x
        simp only [mem_mapPut, hseen, List.mem_append, List.mem_singleton]
      · simp only [hfirst]
      · exact List.Sublist.append hsub (List.Sublist.refl [a])
      · apply List.Nodup.append hnd (List.nodup_singleton a)
        intro y hy1 hy2
        rw [List.mem_singleton] at hy2
        rw [hy2, hmem] at hy1
        exact ha hy1
      · intro x
        simp only [hmem, List.mem_append, List.mem_singleton]

theorem ArrayUnique_nodup [DecidableEq α] (arr : List α) : (ArrayUnique arr).Nodup :=
  (uniqueFold_inv arr).2.2.2.1

theorem mem_ArrayUnique [DecidableEq α] (arr : List α) (x : α) :
    x ∈ ArrayUnique arr ↔ x ∈ arr :=
  (uniqueFold_inv arr).2.2.2.2 x

/-- C3: `ArrayUnique(arr)` is the subsequence of `arr` made of exactly the positions
whose value does not occur at any earlier position; it has no duplicates and the
same values as `arr`. -/
theorem ArrayUnique_first_occurrences [DecidableEq α] (arr : List α) :
    ArrayUnique arr = firstOccurrences arr ∧
    (ArrayUnique arr).Sublist arr ∧
    (ArrayUnique arr).Nodup ∧
    (∀ x, x ∈ ArrayUnique arr ↔ x ∈ arr) := by
  obtain ⟨_, hfirst, hsub, hnd, hmem⟩ := uniqueFold_inv arr
  exact ⟨hfirst, hsub, hnd, hmem⟩


theorem ArrayUnique_tests :
    ArrayUnique [1, 2, 2, 3, 4, 4, 5] = [1, 2, 3, 4, 5] ∧ ArrayUnique ([] : List Nat) = [] := by
  decide

/-! ## ArrayDifference, ArrayIntersection, ArrayUnion, IsArrayIntersect -/

/-- A loop that appends the elements passing a test computes a filter. -/
theorem foldl_append_if (p : α → Bool) (l : List α) :
    ∀ acc : List α,
      l.foldl (fun acc v => if p v then acc ++ [v] else acc) acc = acc ++ l.filter p := by
  induction l with
  | nil => intro acc; simp
  | cons a l ih =>
    intro acc
    rw [List.foldl_cons, ih]
    by_cases h : p a = true
    · simp [h]
    · simp [h]

theorem mapHas_foldl_mapPut [DecidableEq α] (l : List α) (x : α) :
    mapHas (l.foldl mapPut []) x = decide (x ∈ l) := by
  unfold mapHas
  congr 1
  simp [mem_foldl_mapPut]

/-- C4: `ArrayDifference(arr1, arr2)` is `arr1` with exactly the elements occurring
in `arr2` removed; order is kept and duplicates of the remaining elements are
preserved. -/
theorem ArrayDifference_eq_filter [DecidableEq α] (arr1 arr2 : List α) :
    ArrayDifference arr1 arr2 = arr1.filter (fun x => decide (x ∉ arr2)) ∧
    (∀ x, x ∉ arr2 → (ArrayDifference arr1 arr2).count x = arr1.count x) := by
  have h : ArrayDifference arr1 arr2 = arr1.filter (fun x => decide (x ∉ arr2)) := by
    unfold ArrayDifference
    simp only [mapHas_foldl_mapPut]
    rw [foldl_append_if (fun v => !decide (v ∈ arr2)) arr1 []]
    simp
  refine ⟨h, ?_⟩
  intro x hx
  rw [h, List.count_filter]
  simpa using hx

theorem ArrayDifference_eq_filter_witness :
    (ArrayDifference [1, 2, 3, 1] [3, 4, 5]).count 1 = [1, 2, 3, 1].count 1 :=
  (ArrayDifference_eq_filter [1, 2, 3, 1] [3, 4, 5]).2 1 (by decide)

theorem ArrayDifference_tests :
    ArrayDifference [1, 2, 3] [3, 4, 5] = [1, 2] ∧
    ArrayDifference [1, 2, 3, 1, 2] [3, 4, 5] = [1, 2, 1, 2] := by decide

/-- C5: `ArrayIntersection(arr1, arr2)` has no duplicate, and a value occurs in it
exactly when it occurs in both `arr1` and `arr2`. -/
theorem ArrayIntersection_nodup_mem [DecidableEq α] (arr1 arr2 : List α) :
    (ArrayIntersection arr1 arr2).Nodup ∧
    (∀ x, x ∈ ArrayIntersection arr1 arr2 ↔ x ∈ arr1 ∧ x ∈ arr2) := by
  unfold ArrayIntersection
  refine ⟨ArrayUnique_nodup _, ?_⟩
  intro x
  simp only [mem_ArrayUnique, mapHas_foldl_mapPut]
  rw [foldl_append_if (fun v => decide (v ∈ arr1)) arr2 []]
  simp
  tauto

/-- C6: `ArrayUnion(arr1, arr2)` has no duplicate, and a value occurs in it exactly
when it occurs in `arr1` or in `arr2`. -/
theorem ArrayUnion_nodup_mem [DecidableEq α] (arr1 arr2 : List α) :
    (ArrayUnion arr1 arr2).Nodup ∧
    (∀ x, x ∈ ArrayUnion arr1 arr2 ↔ x ∈ arr1 ∨ x ∈ arr2) := by
  unfold ArrayUnion
  refine ⟨ArrayUnique_nodup _, ?_⟩
  intro x
  rw [mem_ArrayUnique, List.mem_append]

theorem intersectScan_eq_true [DecidableEq α] (s arr2 : List α) :
    intersectScan s arr2 = true ↔ ∃ x, x ∈ arr2 ∧ x ∈ s := by
  induction arr2 with
  | nil => simp [intersectScan]
  | cons v rest ih =>
    unfold intersectScan
    by_cases h : v ∈ s
    · simp only [mapHas, h, decide_True, if_true, true_iff]
      exact ⟨v, List.mem_cons_self v rest, h⟩
    · simp only [mapHas, h, decide_False]
      rw [if_neg (by simp), ih]
      constructor
      · rintro ⟨x, hx, hs⟩
        exact ⟨x, List.mem_cons_of_mem v hx, hs⟩
      · rintro ⟨x, hx, hs⟩
        rcases List.mem_cons.mp hx with rfl | hx
        · exact absurd hs h
        · exact ⟨x, hx, hs⟩

/-- C7: `IsArrayIntersect(arr1, arr2)` is true exactly when some element of `arr2`
equals some element of `arr1`; it is false when either sequence is empty. -/
theorem IsArrayIntersect_iff [DecidableEq α] (arr1 arr2 : List α) :
    (IsArrayIntersect arr1 arr2 = true ↔ ∃ x, x ∈ arr2 ∧ ∃ y, y ∈ arr1 ∧ x = y) ∧
    (arr1 = [] ∨ arr2 = [] → IsArrayIntersect arr1 arr2 = false) := by
  have h : IsArrayIntersect arr1 arr2 = true ↔ ∃ x, x ∈ arr2 ∧ ∃ y, y ∈ arr1 ∧ x = y := by
    unfold IsArrayIntersect
    simp only [intersectScan_eq_true, mem_foldl_mapPut]
    simp
  refine ⟨h, ?_⟩
  intro he
  rw [← Bool.not_eq_true, h]
  rintro ⟨x, hx, y, hy, _⟩
  rcases he with rfl | rfl
  · simp at hy
  · simp at hx

theorem IsArrayIntersect_iff_witness :
    IsArrayIntersect [1, 2, 3] ([] : List Nat) = false :=
  (IsArrayIntersect_iff [1, 2, 3] ([] : List Nat)).2 (Or.inr rfl)

theorem IsArrayIntersect_tests :
    IsArrayIntersect [1, 2, 3] [3, 4, 5] = true ∧
    IsArrayIntersect [1, 2, 3] [4, 5, 6] = false := by decide

/-! ## ArrayShuffle -/

/-- Exchanging two positions of a list permutes it. -/
theorem set_set_perm (a : List α) (i j : Nat) (hi : i < a.length) (hj : j < a.length) :
    ((a.set i a[j]).set j a[i]).Perm a := by
  classical
  rw [List.perm_iff_count]
  intro b
  have hj2 : j < (a.set i a[j]).length := by rw [List.length_set]; exact hj
  have hget : (a.set i a[j])[j] = a[j] := by
    rw [List.getElem_set]
    split <;> rfl
  rw [List.count_set _ _ _ _ hj2, hget, List.count_set _ _ _ _ hi]
  have hle : (if a[i] == b then 1 else 0) ≤ a.count b := by
    have := List.boole_getElem_le_countP (fun x => x == b) a i hi
    simpa [List.count_eq_countP] using this
  omega

theorem swapAt_perm (a : List α) (i j : Nat) (hi : i < a.length) (hj : j < a.length) :
    ∃ b, swapAt a i j = some b ∧ b.Perm a := by
  refine ⟨(a.set i a[j]).set j a[i], ?_, set_set_perm a i j hi hj⟩
  simp [swapAt, List.getElem?_eq_getElem hi, List.getElem?_eq_getElem hj]

theorem applySwaps_perm (swaps : List (Nat × Nat)) :
    ∀ a : List α, (∀ p ∈ swaps, p.1 < a.length ∧ p.2 < a.length) →
      ∃ r, applySwaps a swaps = some r ∧ r.Perm a := by
  induction swaps with
  | nil => intro a _; exact ⟨a, rfl, List.Perm.refl a⟩
  | cons p rest ih =>
    intro a h
    obtain ⟨i, j⟩ := p
    have hij := h (i, j) (List.mem_cons_self _ _)
    obtain ⟨b, hb, hperm⟩ := swapAt_perm a i j hij.1 hij.2
    obtain ⟨r, hr, hrperm⟩ := ih b (by
      intro q hq
      rw [hperm.length_eq]
      exact h q (List.mem_cons_of_mem _ hq))
    refine ⟨r, ?_, hrperm.trans hperm⟩
    simp only [applySwaps, hb]
    exact hr

/-- C8: for every `arr` and every sequence of in-range index swaps performed by the
library shuffle, `ArrayShuffle(arr)` returns a permutation of `arr`: same length,
same multiset of elements; for the empty sequence the result is empty. -/
theorem ArrayShuffle_perm (arr : List α) (swaps : List (Nat × Nat))
    (h : ∀ p ∈ swaps, p.1 < arr.length ∧ p.2 < arr.length) :
    ∃ r, ArrayShuffle arr swaps = some r ∧ r.Perm arr ∧ r.length = arr.length ∧
      (r : Multiset α) = (arr : Multiset α) ∧ (arr = [] → r = []) := by
  obtain ⟨r, hr, hperm⟩ := applySwaps_perm swaps arr h
  refine ⟨r, hr, hperm, hperm.length_eq, Multiset.coe_eq_coe.mpr hperm, ?_⟩
  intro he
  rw [he] at hperm
  exact List.Perm.eq_nil hperm

theorem ArrayShuffle_perm_witness :
    (∀ p ∈ [(4, 1), (3, 3), (2, 0), (1, 0)],
      p.1 < [1, 2, 3, 4, 5].length ∧ p.2 < [1, 2, 3, 4, 5].length) ∧
    ∃ r, ArrayShuffle [1, 2, 3, 4, 5] [(4, 1), (3, 3), (2, 0), (1, 0)] = some r ∧
      r.Perm [1, 2, 3, 4, 5] ∧ r.length = [1, 2, 3, 4, 5].length ∧
      (r : Multiset Nat) = (([1, 2, 3, 4, 5] : List Nat) : Multiset Nat) ∧
      ([1, 2, 3, 4, 5] = [] → r = []) :=
  ⟨by decide, ArrayShuffle_perm [1, 2, 3, 4, 5] [(4, 1), (3, 3), (2, 0), (1, 0)] (by decide)⟩

/-! ## Stopwatch -/

theorem lookup_map_replace (m : List (String × timer)) (name : String) (t : timer) :
    ∀ k, (m.map fun p => if p.1 = name then (p.1, t) else p).lookup k =
      if k = name then (m.lookup k).map (fun _ => t) else m.lookup k := by
  intro k
  induction m with
  | nil => simp
  | cons p m ih =>
    obtain ⟨q, u⟩ := p
    rw [List.map_cons]
    by_cases hq : q = name
    · subst hq
      simp only [if_true, List.lookup_cons]
      by_cases hk : k = q
      · subst hk; simp
      · have : (k == q) = false := by simpa using hk
        simp only [this, ih, if_neg hk]
    · simp only [if_neg hq, List.lookup_cons]
      by_cases hk : k = q
      · subst hk
        simp [hq]
      · have : (k == q) = false := by simpa using hk
        simp only [this, ih]

theorem getTimer_setTimer_same (m : List (String × timer)) (name : String) (t : timer) :
    getTimer (setTimer m name t) name = some t := by
  unfold setTimer getTimer
  cases h : m.lookup name with
  | none => simp [List.lookup_append, h]
  | some u => simp [lookup_map_replace, h]

theorem getTimer_setTimer_other (m : List (String × timer)) (name other : String) (t : timer)
    (hne : other ≠ name) : getTimer (setTimer m name t) other = getTimer m other := by
  unfold setTimer getTimer
  cases h : m.lookup name with
  | none =>
    have : (other == name) = false := by simpa using hne
    simp [List.lookup_append, List.lookup_cons, this]
  | some u => simp [lookup_map_replace, hne]

theorem keys_setTimer_present (m : List (String × timer)) (name : String) (t u : timer)
    (h : getTimer m name = some u) :
    (setTimer m name t).map Prod.fst = m.map Prod.fst := by
  unfold setTimer
  rw [h]
  simp only [Option.isSome_some, if_true, List.map_map]
  apply List.map_congr_left
  intro p _
  by_cases hp : p.1 = name <;> simp [hp]

/-- C9: when the timer `name` exists and is running, `Stop(name)` at clock reading
`now` adds `now - startTime` to its duration, marks it not running, increments its
count by one and returns the new total duration; every other timer, the set of keys
and the order list are unchanged. -/
theorem Stop_running (s : Stopwatch) (name : String) (now : Int) (t : timer)
    (hget : getTimer s.timers name = some t) (hrun : t.running = true) :
    getTimer (s.Stop name now).1.timers name =
      some (timer.mk t.name t.startTime (t.duration + (now - t.startTime)) false
        (t.count + 1)) ∧
    (s.Stop name now).2 = t.duration + (now - t.startTime) ∧
    (∀ other, other ≠ name →
      getTimer (s.Stop name now).1.timers other = getTimer s.timers other) ∧
    (s.Stop name now).1.timers.map Prod.fst = s.timers.map Prod.fst ∧
    (s.Stop name now).1.orderNames = s.orderNames := by
  have hstop : s.Stop name now =
      (Stopwatch.mk (setTimer s.timers name
          (timer.mk t.name t.startTime (t.duration + (now - t.startTime)) false (t.count + 1)))
          s.orderNames,
        t.duration + (now - t.startTime)) := by
    simp [Stopwatch.Stop, hget, hrun, since]
  rw [hstop]
  refine ⟨getTimer_setTimer_same _ _ _, rfl, ?_, keys_setTimer_present _ _ _ t hget, rfl⟩
  intro other hne
  exact getTimer_setTimer_other _ _ _ _ hne

theorem Stop_running_witness :
    getTimer exampleRegistry.timers "a" = some (timer.mk "a" 10 5 true 2) ∧
    (timer.mk "a" 10 5 true 2).running = true ∧
    getTimer (exampleRegistry.Stop "a" 30).1.timers "a" =
      some (timer.mk "a" 10 (5 + (30 - 10)) false (2 + 1)) ∧
    (exampleRegistry.Stop "a" 30).2 = 5 + (30 - 10) ∧
    (∀ other, other ≠ "a" →
      getTimer (exampleRegistry.Stop "a" 30).1.timers other =
        getTimer exampleRegistry.timers other) ∧
    (exampleRegistry.Stop "a" 30).1.timers.map Prod.fst = exampleRegistry.timers.map Prod.fst ∧
    (exampleRegistry.Stop "a" 30).1.orderNames = exampleRegistry.orderNames :=
  ⟨by decide, rfl,
    Stop_running exampleRegistry "a" 30 (timer.mk "a" 10 5 true 2) (by decide) rfl⟩

/-- C10: when `name` is unknown or its timer is not running, `Stop(name)` returns a
zero duration and leaves the whole registry unchanged. -/
theorem Stop_noop (s : Stopwatch) (name : String) (now : Int)
    (h : getTimer s.timers name = none ∨
      ∃ t, getTimer s.timers name = some t ∧ t.running = false) :
    s.Stop name now = (s, 0) ∧
    getTimer (s.Stop name now).1.timers name = getTimer s.timers name := by
  have hstop : s.Stop name now = (s, 0) := by
    rcases h with h | ⟨t, h, hrun⟩
    · simp [Stopwatch.Stop, h]
    · simp [Stopwatch.Stop, h, hrun]
  rw [hstop]
  exact ⟨rfl, rfl⟩

theorem Stop_noop_witness :
    (getTimer exampleRegistry.timers "b" = none ∨
      ∃ t, getTimer exampleRegistry.timers "b" = some t ∧ t.running = false) ∧
    exampleRegistry.Stop "b" 30 = (exampleRegistry, 0) ∧
    getTimer (exampleRegistry.Stop "b" 30).1.timers "b" =
      getTimer exampleRegistry.timers "b" :=
  ⟨Or.inr ⟨timer.mk "b" 0 7 false 1, by decide, rfl⟩,
    Stop_noop exampleRegistry "b" 30 (Or.inr ⟨timer.mk "b" 0 7 false 1, by decide, rfl⟩)⟩

/-! ## Start -/

theorem keys_setTimer_absent (m : List (String × timer)) (name : String) (t : timer)
    (h : getTimer m name = none) :
    (setTimer m name t).map Prod.fst = m.map Prod.fst ++ [name] := by
  unfold setTimer
  rw [h]
  simp

/-- The timer bound to `name` after `Start(name)`. -/
theorem Start_timer (s : Stopwatch) (name : String) (nowSince now : Int) :
    getTimer (s.Start name nowSince now).timers name =
      some (match getTimer s.timers name with
        | some t =>
          timer.mk t.name now
            (if t.running then t.duration + (nowSince - t.startTime) else t.duration) true t.count
        | none => timer.mk name now 0 true 0) := by
  unfold Stopwatch.Start
  cases h : getTimer s.timers name with
  | none => simp [getTimer_setTimer_same]
  | some t =>
    by_cases hr : t.running = true
    · simp [getTimer_setTimer_same, hr, since]
    · simp [getTimer_setTimer_same, hr]

/-- `Start(name)` leaves the timers of all other names as they were. -/
theorem Start_other (s : Stopwatch) (name other : String) (nowSince now : Int)
    (hne : other ≠ name) :
    getTimer (s.Start name nowSince now).timers other = getTimer s.timers other := by
  unfold Stopwatch.Start
  cases h : getTimer s.timers name with
  | none => simp [getTimer_setTimer_other _ _ _ _ hne]
  | some t => simp [getTimer_setTimer_other _ _ _ _ hne]

/-- `Start(name)` appends `name` to the order list exactly when `name` is unknown. -/
theorem Start_orderNames (s : Stopwatch) (name : String) (nowSince now : Int) :
    (s.Start name nowSince now).orderNames =
      if (getTimer s.timers name).isSome then s.orderNames else s.orderNames ++ [name] := by
  unfold Stopwatch.Start
  cases h : getTimer s.timers name with
  | none => simp
  | some t => simp

/-- What `Stop(name)` does when the timer exists and is running. -/
theorem Stop_of_running (s : Stopwatch) (name : String) (now : Int) (t : timer)
    (hget : getTimer s.timers name = some t) (hrun : t.running = true) :
    s.Stop name now =
      (Stopwatch.mk (setTimer s.timers name
          (timer.mk t.name t.startTime (t.duration + (now - t.startTime)) false (t.count + 1)))
          s.orderNames,
        t.duration + (now - t.startTime)) := by
  simp [Stopwatch.Stop, hget, hrun, since]

/-- C11: when the timer `name` is already running, `Start(name)` adds the elapsed
interval (clock reading minus `startTime`) to its duration, sets `startTime` to the
clock reading of the restart, keeps it running, and leaves its count, the other timers
and the order list unchanged; and from any registry, `Start`, `Start`, `Stop` on one
name raises its count by exactly one.  The two clock readings of one call are
`nowSince` and `now`; a single reading is the case `nowSince = now`. -/
theorem Start_running_accumulates (s : Stopwatch) (name : String)
    (nowSince now nowSince2 now2 nowStop : Int) :
    (∀ t, getTimer s.timers name = some t → t.running = true →
      getTimer (s.Start name nowSince now).timers name =
          some (timer.mk t.name now (t.duration + (nowSince - t.startTime)) true t.count) ∧
        (∀ other, other ≠ name →
          getTimer (s.Start name nowSince now).timers other = getTimer s.timers other) ∧
        (s.Start name nowSince now).orderNames = s.orderNames) ∧
    (getTimer (((s.Start name nowSince now).Start name nowSince2 now2).Stop name
        nowStop).1.timers name).map timer.count =
      some (((getTimer s.timers name).map timer.count).getD 0 + 1) := by
  constructor
  · intro t hget hrun
    refine ⟨?_, ?_, ?_⟩
    · rw [Start_timer, hget]
      simp [hrun]
    · intro other hne
      exact Start_other s name other nowSince now hne
    · rw [Start_orderNames, hget]
      rfl
  · have h1 := Start_timer s name nowSince now
    have h2 := Start_timer (s.Start name nowSince now) name nowSince2 now2
    rw [h1] at h2
    rw [Stop_of_running _ name nowStop _ h2 (by cases getTimer s.timers name <;> rfl)]
    simp only [getTimer_setTimer_same, Option.map_some']
    cases getTimer s.timers name <;> rfl

theorem Start_running_accumulates_witness :
    getTimer (exampleRegistry.Start "a" 30 30).timers "a" =
        some (timer.mk "a" 30 (5 + (30 - 10)) true 2) ∧
      (∀ other, other ≠ "a" →
        getTimer (exampleRegistry.Start "a" 30 30).timers other =
          getTimer exampleRegistry.timers other) ∧
      (exampleRegistry.Start "a" 30 30).orderNames = exampleRegistry.orderNames :=
  (Start_running_accumulates exampleRegistry "a" 30 30 40 40 50).1
    (timer.mk "a" 10 5 true 2) (by decide) rfl

/-- C12, as stated, fails: on a new timer, `Start` at 0, `Start` at 50 and `Stop` at
100 return 100, not `0 + (100 - 50)`. -/
theorem Start_Start_Stop_counterexample :
    (((New.Start "t" 0 0).Start "t" 50 50).Stop "t" 100).2 = 100 ∧
    (((New.Start "t" 0 0).Start "t" 50 50).Stop "t" 100).2 ≠ 0 + (100 - 50) := by
  decide

/-- C12, amended: for a timer that is new or stopped with accumulated duration `d`
(`d = 0` when new), after `Start` at `t1`, `Start` at `t2` and `Stop` at `t3` the
duration returned by `Stop` is `d + (t3 - t1)`: the interval between the two `Start`s
is kept, not discarded. -/
theorem Start_Start_Stop_duration (s : Stopwatch) (name : String) (d t1 t2 t3 : Int)
    (h : (getTimer s.timers name = none ∧ d = 0) ∨
      ∃ t, getTimer s.timers name = some t ∧ t.running = false ∧ d = t.duration) :
    (((s.Start name t1 t1).Start name t2 t2).Stop name t3).2 = d + (t3 - t1) := by
  have h1 := Start_timer s name t1 t1
  have h2 := Start_timer (s.Start name t1 t1) name t2 t2
  rw [h1] at h2
  rcases h with ⟨hnone, hd⟩ | ⟨t, hsome, hrun, hd⟩
  · rw [hnone] at h2
    rw [Stop_of_running _ name t3 _ h2 rfl, hd]
    simp only [if_true]
    omega
  · rw [hsome] at h2
    rw [Stop_of_running _ name t3 _ h2 rfl, hd]
    simp only [hrun, if_true]
    simp
    omega

theorem Start_Start_Stop_duration_witness :
    ((getTimer exampleRegistry.timers "b" = none ∧ (7 : Int) = 0) ∨
      ∃ t, getTimer exampleRegistry.timers "b" = some t ∧ t.running = false ∧
        (7 : Int) = t.duration) ∧
    (((exampleRegistry.Start "b" 100 100).Start "b" 150 150).Stop "b" 200).2 =
      7 + (200 - 100) :=
  ⟨Or.inr ⟨timer.mk "b" 0 7 false 1, by decide, rfl, rfl⟩,
    Start_Start_Stop_duration exampleRegistry "b" 7 100 150 200
      (Or.inr ⟨timer.mk "b" 0 7 false 1, by decide, rfl, rfl⟩)⟩

/-! ## StopAll, Reset, GetDuration, GetTimerStats -/

theorem lookup_map_snd {β γ : Type} (f : String → β → γ) (m : List (String × β))
    (k : String) :
    (m.map fun p => (p.1, f p.1 p.2)).lookup k = (m.lookup k).map (f k) := by
  induction m with
  | nil => rfl
  | cons p m ih =>
    obtain ⟨q, u⟩ := p
    rw [List.map_cons]
    simp only [List.lookup_cons]
    by_cases hk : k = q
    · subst hk; simp
    · have hb : (k == q) = false := by simpa using hk
      simp only [hb, ih]

theorem stopAllTimer_running (t : timer) (now : Int) :
    (stopAllTimer t now).running = false := by
  unfold stopAllTimer
  by_cases h : t.running = true
  · simp [h]
  · simp [h]

theorem stopAllTimer_of_stopped (t : timer) (now : Int) (h : t.running = false) :
    stopAllTimer t now = t := by
  simp [stopAllTimer, h]

theorem stopAllTimer_of_running (t : timer) (now : Int) (h : t.running = true) :
    stopAllTimer t now =
      timer.mk t.name t.startTime (t.duration + (now - t.startTime)) false (t.count + 1) := by
  simp [stopAllTimer, h, since]

theorem StopAll_timer (s : Stopwatch) (clock : String → Int) (name : String) :
    getTimer (s.StopAll clock).1.timers name =
      (getTimer s.timers name).map fun t => stopAllTimer t (clock name) := by
  unfold Stopwatch.StopAll getTimer
  exact lookup_map_snd (fun n t => stopAllTimer t (clock n)) s.timers name

/-- A second `StopAll` finds no running timer: same registry, same returned map. -/
theorem StopAll_StopAll (s : Stopwatch) (clock1 clock2 : String → Int) :
    (s.StopAll clock1).1.StopAll clock2 = s.StopAll clock1 := by
  unfold Stopwatch.StopAll
  have h : (s.timers.map fun p => (p.1, stopAllTimer p.2 (clock1 p.1))).map
      (fun p => (p.1, stopAllTimer p.2 (clock2 p.1))) =
      s.timers.map fun p => (p.1, stopAllTimer p.2 (clock1 p.1)) := by
    rw [List.map_map]
    apply List.map_congr_left
    intro p _
    simp [stopAllTimer_of_stopped _ _ (stopAllTimer_running p.2 (clock1 p.1))]
  simp only [h]

/-- C13: `StopAll()` stops every running timer with the effect of `Stop` (duration
increased by clock reading minus `startTime`, count plus one, not running), leaves
every timer that is not running unchanged, returns a map whose keys are exactly the
registered names, each bound to that timer's duration after the call, and leaves no
timer running.  `clock name` is the clock reading taken for `name`; a single reading
is a constant `clock`. -/
theorem StopAll_effect (s : Stopwatch) (clock : String → Int) :
    (∀ name t, getTimer s.timers name = some t → t.running = true →
      getTimer (s.StopAll clock).1.timers name =
          some (timer.mk t.name t.startTime (t.duration + (clock name - t.startTime)) false
            (t.count + 1)) ∧
        getTimer (s.StopAll clock).1.timers name =
          getTimer (s.Stop name (clock name)).1.timers name) ∧
    (∀ name t, getTimer s.timers name = some t → t.running = false →
      getTimer (s.StopAll clock).1.timers name = some t) ∧
    (s.StopAll clock).2.map Prod.fst = s.timers.map Prod.fst ∧
    (s.StopAll clock).1.timers.map Prod.fst = s.timers.map Prod.fst ∧
    (∀ name, (s.StopAll clock).2.lookup name =
      (getTimer (s.StopAll clock).1.timers name).map timer.duration) ∧
    (∀ p, p ∈ (s.StopAll clock).1.timers → p.2.running = false) ∧
    (s.StopAll clock).1.orderNames = s.orderNames := by
  refine ⟨?_, ?_, ?_, ?_, ?_, ?_, rfl⟩
  · intro name t hget hrun
    have h1 : getTimer (s.StopAll clock).1.timers name =
        some (timer.mk t.name t.startTime (t.duration + (clock name - t.startTime)) false
          (t.count + 1)) := by
      rw [StopAll_timer, hget, Option.map_some', stopAllTimer_of_running _ _ hrun]
    refine ⟨h1, ?_⟩
    rw [h1, Stop_of_running s name (clock name) t hget hrun]
    exact (getTimer_setTimer_same _ _ _).symm
  · intro name t hget hrun
    rw [StopAll_timer, hget, Option.map_some', stopAllTimer_of_stopped _ _ hrun]
  · simp [Stopwatch.StopAll, List.map_map, Function.comp_def]
  · simp [Stopwatch.StopAll, List.map_map, Function.comp_def]
  · intro name
    show ((s.timers.map fun p => (p.1, stopAllTimer p.2 (clock p.1))).map
        fun p => (p.1, p.2.duration)).lookup name =
      (((s.timers.map fun p => (p.1, stopAllTimer p.2 (clock p.1)))).lookup name).map
        timer.duration
    exact lookup_map_snd (fun _ (t : timer) => t.duration) _ name
  · intro p hp
    simp only [Stopwatch.StopAll, List.mem_map] at hp
    obtain ⟨q, _, rfl⟩ := hp
    exact stopAllTimer_running q.2 (clock q.1)

theorem StopAll_effect_witness :
    getTimer (exampleRegistry.StopAll fun _ => 30).1.timers "a" =
        some (timer.mk "a" 10 (5 + (30 - 10)) false (2 + 1)) ∧
      getTimer (exampleRegistry.StopAll fun _ => 30).1.timers "a" =
        getTimer (exampleRegistry.Stop "a" 30).1.timers "a" :=
  (StopAll_effect exampleRegistry fun _ => 30).1 "a" (timer.mk "a" 10 5 true 2)
    (by decide) rfl

/-- C14: `GetDuration(name)` returns zero for an unknown name, the accumulated
duration of a stopped timer, and duration plus clock reading minus `startTime` for a
running one; the registry after the call is the registry before it. -/
theorem GetDuration_value (s : Stopwatch) (name : String) (now : Int) :
    (getTimer s.timers name = none → (s.GetDuration name now).2 = 0) ∧
    (∀ t, getTimer s.timers name = some t → t.running = false →
      (s.GetDuration name now).2 = t.duration) ∧
    (∀ t, getTimer s.timers name = some t → t.running = true →
      (s.GetDuration name now).2 = t.duration + (now - t.startTime)) ∧
    (s.GetDuration name now).1 = s := by
  refine ⟨?_, ?_, ?_, ?_⟩
  · intro h
    simp [Stopwatch.GetDuration, h]
  · intro t h hrun
    simp [Stopwatch.GetDuration, h, hrun]
  · intro t h hrun
    simp [Stopwatch.GetDuration, h, hrun, since]
  · unfold Stopwatch.GetDuration
    cases getTimer s.timers name with
    | none => rfl
    | some t => by_cases hrun : t.running = true <;> simp [hrun]

theorem GetDuration_value_witness :
    (exampleRegistry.GetDuration "a" 30).2 = 5 + (30 - 10) ∧
    (exampleRegistry.GetDuration "b" 30).2 = 7 ∧
    (exampleRegistry.GetDuration "c" 30).2 = 0 :=
  ⟨(GetDuration_value exampleRegistry "a" 30).2.2.1 (timer.mk "a" 10 5 true 2) (by decide) rfl,
    (GetDuration_value exampleRegistry "b" 30).2.1 (timer.mk "b" 0 7 false 1) (by decide) rfl,
    (GetDuration_value exampleRegistry "c" 30).1 (by decide)⟩

/-- C15: `GetTimerStats(name)` returns `(count, total, average)`: `count` is the
timer's count, `total` is what `GetDuration(name)` returns at the same clock reading,
`average` is `total / count` (truncated integer division) when `count > 0` and zero
otherwise; for an unknown name all three are zero.  The registry is unchanged. -/
theorem GetTimerStats_value (s : Stopwatch) (name : String) (now : Int) :
    (getTimer s.timers name = none → (s.GetTimerStats name now).2 = (0, 0, 0)) ∧
    (∀ t, getTimer s.timers name = some t →
      (s.GetTimerStats name now).2 =
        (t.count, (s.GetDuration name now).2,
          if t.count > 0 then Int.tdiv (s.GetDuration name now).2 t.count else 0)) ∧
    (s.GetTimerStats name now).1 = s := by
  refine ⟨?_, ?_, ?_⟩
  · intro h
    simp [Stopwatch.GetTimerStats, h]
  · intro t h
    by_cases hrun : t.running = true
    · simp [Stopwatch.GetTimerStats, Stopwatch.GetDuration, h, hrun]
    · simp [Stopwatch.GetTimerStats, Stopwatch.GetDuration, h, hrun]
  · unfold Stopwatch.GetTimerStats
    cases getTimer s.timers name with
    | none => rfl
    | some t => rfl

theorem GetTimerStats_value_witness :
    (exampleRegistry.GetTimerStats "a" 30).2 =
        (2, (exampleRegistry.GetDuration "a" 30).2,
          if (2 : Int) > 0 then Int.tdiv (exampleRegistry.GetDuration "a" 30).2 2 else 0) ∧
    (exampleRegistry.GetTimerStats "c" 30).2 = (0, 0, 0) :=
  ⟨(GetTimerStats_value exampleRegistry "a" 30).2.1 (timer.mk "a" 10 5 true 2) (by decide),
    (GetTimerStats_value exampleRegistry "c" 30).1 (by decide)⟩

theorem GetTimerStats_tests :
    (exampleRegistry.GetTimerStats "a" 30).2 = (2, 25, 12) ∧
    (exampleRegistry.GetTimerStats "b" 30).2 = (1, 7, 7) := by
  decide

/-- C17: `Reset()` discards all timers and the order list: the registry is the one
`New()` produces, a following `StopAll()` returns an empty map, and every name is
unknown. -/
theorem Reset_eq_New (s : Stopwatch) (clock : String → Int) :
    s.Reset = New ∧
    s.Reset.timers = [] ∧
    s.Reset.orderNames = [] ∧
    (s.Reset.StopAll clock).2 = [] ∧
    (∀ name, getTimer s.Reset.timers name = none) := by
  refine ⟨rfl, rfl, rfl, rfl, ?_⟩
  intro name
  rfl

/-- C20: a second `Stats()` right after the first returns the same text and leaves
the registry as the first call left it, whatever the clock reads; a second
`StopAll()` returns the same map as the first and changes nothing. -/
theorem Stats_Stats_same (s : Stopwatch) (clock1 clock2 : String → Int)
    (fmt : Int → String) :
    ((s.Stats clock1 fmt).1.Stats clock2 fmt).2 = (s.Stats clock1 fmt).2 ∧
    ((s.Stats clock1 fmt).1.Stats clock2 fmt).1 = (s.Stats clock1 fmt).1 ∧
    ((s.StopAll clock1).1.StopAll clock2).2 = (s.StopAll clock1).2 ∧
    ((s.StopAll clock1).1.StopAll clock2).1 = (s.StopAll clock1).1 := by
  have h := StopAll_StopAll s clock1 clock2
  refine ⟨?_, ?_, ?_, ?_⟩
  · simp only [Stopwatch.Stats, h]
  · simp only [Stopwatch.Stats, h]
  · rw [h]
  · rw [h]

/-! ## The order list -/

theorem getTimer_isSome_iff (m : List (String × timer)) (name : String) :
    (getTimer m name).isSome = true ↔ name ∈ m.map Prod.fst := by
  unfold getTimer
  induction m with
  | nil => simp
  | cons p m ih =>
    obtain ⟨q, u⟩ := p
    simp only [List.lookup_cons, List.map_cons, List.mem_cons]
    by_cases hk : name = q
    · subst hk; simp
    · have hb : (name == q) = false := by simpa using hk
      simp only [hb, ih, hk, false_or]

theorem Start_keys (s : Stopwatch) (name : String) (nowSince now : Int) :
    (s.Start name nowSince now).timers.map Prod.fst =
      if (getTimer s.timers name).isSome then s.timers.map Prod.fst
      else s.timers.map Prod.fst ++ [name] := by
  unfold Stopwatch.Start
  cases h : getTimer s.timers name with
  | none =>
    simp only [Option.isSome_none, Bool.false_eq_true, if_false]
    rw [keys_setTimer_present _ name _ _ (getTimer_setTimer_same s.timers name _),
      keys_setTimer_absent _ _ _ h]
  | some t =>
    simp only [Option.isSome_some, if_true]
    exact keys_setTimer_present _ name _ t h

theorem Stop_keys (s : Stopwatch) (name : String) (now : Int) :
    (s.Stop name now).1.timers.map Prod.fst = s.timers.map Prod.fst ∧
    (s.Stop name now).1.orderNames = s.orderNames := by
  unfold Stopwatch.Stop
  cases h : getTimer s.timers name with
  | none => exact ⟨rfl, rfl⟩
  | some t =>
    by_cases hrun : t.running = true
    · simp only [hrun, Bool.not_true, Bool.false_eq_true, if_false]
      exact ⟨keys_setTimer_present _ name _ t h, trivial⟩
    · simp [hrun]

theorem StopAll_keys (s : Stopwatch) (clock : String → Int) :
    (s.StopAll clock).1.timers.map Prod.fst = s.timers.map Prod.fst := by
  simp [Stopwatch.StopAll, List.map_map, Function.comp_def]

theorem GetDuration_state (s : Stopwatch) (name : String) (now : Int) :
    (s.GetDuration name now).1 = s := by
  unfold Stopwatch.GetDuration
  cases getTimer s.timers name with
  | none => rfl
  | some t => by_cases hrun : t.running = true <;> simp [hrun]

theorem GetTimerStats_state (s : Stopwatch) (name : String) (now : Int) :
    (s.GetTimerStats name now).1 = s := by
  unfold Stopwatch.GetTimerStats
  cases getTimer s.timers name with
  | none => rfl
  | some t => rfl

/-- What one call does to the order list. -/
theorem step_orderNames (s : Stopwatch) (op : Op) :
    (s.step op).orderNames =
      match op with
      | Op.start name _ _ =>
        if (getTimer s.timers name).isSome then s.orderNames else s.orderNames ++ [name]
      | Op.reset => []
      | _ => s.orderNames := by
  cases op with
  | start name a b => exact Start_orderNames s name a b
  | stop name now => exact (Stop_keys s name now).2
  | stopAll clock => rfl
  | reset => rfl
  | getDuration name now => simp [Stopwatch.step, GetDuration_state]
  | getTimerStats name now => simp [Stopwatch.step, GetTimerStats_state]
  | stats clock fmt => rfl

/-- What one call does to the key set of the timer map. -/
theorem step_keys (s : Stopwatch) (op : Op) :
    (s.step op).timers.map Prod.fst =
      match op with
      | Op.start name _ _ =>
        if (getTimer s.timers name).isSome then s.timers.map Prod.fst
        else s.timers.map Prod.fst ++ [name]
      | Op.reset => []
      | _ => s.timers.map Prod.fst := by
  cases op with
  | start name a b => exact Start_keys s name a b
  | stop name now => exact (Stop_keys s name now).1
  | stopAll clock => exact StopAll_keys s clock
  | reset => rfl
  | getDuration name now => simp [Stopwatch.step, GetDuration_state]
  | getTimerStats name now => simp [Stopwatch.step, GetTimerStats_state]
  | stats clock fmt => exact StopAll_keys s clock

theorem run_snoc (s : Stopwatch) (ops : List Op) (op : Op) :
    s.run (ops ++ [op]) = (s.run ops).step op := by
  simp [Stopwatch.run, List.foldl_append]

theorem startedSinceReset_snoc (ops : List Op) (op : Op) :
    startedSinceReset (ops ++ [op]) =
      match op with
      | Op.start name _ _ => startedSinceReset ops ++ [name]
      | Op.reset => []
      | _ => startedSinceReset ops := by
  unfold startedSinceReset
  rw [List.foldl_append]
  cases op <;> rfl

theorem firstOccurrences_nil [DecidableEq α] : firstOccurrences ([] : List α) = [] := by
  simp [firstOccurrences]

theorem mem_firstOccurrences [DecidableEq α] (arr : List α) (x : α) :
    x ∈ firstOccurrences arr ↔ x ∈ arr := by
  rw [← (uniqueFold_inv arr).2.1]
  exact (uniqueFold_inv arr).2.2.2.2 x

theorem firstOccurrences_nodup [DecidableEq α] (arr : List α) :
    (firstOccurrences arr).Nodup := by
  rw [← (uniqueFold_inv arr).2.1]
  exact (uniqueFold_inv arr).2.2.2.1

/-- In every registry reached from `New()` the keys of the timer map, in insertion
order, are the order list, which holds the first occurrences of the names started
since the last `Reset`. -/
theorem run_invariant (ops : List Op) :
    (New.run ops).timers.map Prod.fst = (New.run ops).orderNames ∧
    (New.run ops).orderNames = firstOccurrences (startedSinceReset ops) := by
  induction ops using List.reverseRecOn with
  | nil => exact ⟨rfl, firstOccurrences_nil.symm⟩
  | append_singleton ops op ih =>
    obtain ⟨hkeys, horder⟩ := ih
    rw [run_snoc, step_keys, step_orderNames, startedSinceReset_snoc]
    cases op with
    | start name a b =>
      simp only
      rw [firstOccurrences_snoc, ← horder, hkeys]
      refine ⟨rfl, ?_⟩
      have hmem : (getTimer (New.run ops).timers name).isSome = true ↔
          name ∈ startedSinceReset ops := by
        rw [getTimer_isSome_iff, hkeys, horder, mem_firstOccurrences]
      by_cases hin : name ∈ startedSinceReset ops
      · rw [if_pos (hmem.mpr hin), if_pos hin, List.append_nil]
      · rw [if_neg (fun h => hin (hmem.mp h)), if_neg hin]
    | reset => exact ⟨rfl, firstOccurrences_nil.symm⟩
    | stop name now => exact ⟨hkeys, horder⟩
    | stopAll clock => exact ⟨hkeys, horder⟩
    | getDuration name now => exact ⟨hkeys, horder⟩
    | getTimerStats name now => exact ⟨hkeys, horder⟩
    | stats clock fmt => exact ⟨hkeys, horder⟩

/-- C18: in every registry reached from `New()` by `Start`, `Stop`, `StopAll`,
`Reset`, `GetDuration`, `GetTimerStats` and `Stats` calls, the order list has no
duplicates, holds exactly the keys of the timer map, and lists the names in the order
of their first `Start` since the last `Reset`; one more call appends a name only when
it is a `Start` of an unknown name, empties the list when it is a `Reset`, and
otherwise leaves the list as it is. -/
theorem orderNames_invariant (ops : List Op) :
    (New.run ops).orderNames.Nodup ∧
    (∀ name, name ∈ (New.run ops).orderNames ↔
      (getTimer (New.run ops).timers name).isSome = true) ∧
    (New.run ops).orderNames = firstOccurrences (startedSinceReset ops) ∧
    (∀ op : Op, (New.run (ops ++ [op])).orderNames =
      match op with
      | Op.start name _ _ =>
        if name ∈ (New.run ops).orderNames then (New.run ops).orderNames
        else (New.run ops).orderNames ++ [name]
      | Op.reset => []
      | _ => (New.run ops).orderNames) := by
  obtain ⟨hkeys, horder⟩ := run_invariant ops
  have hmem : ∀ name, name ∈ (New.run ops).orderNames ↔
      (getTimer (New.run ops).timers name).isSome = true := by
    intro name
    rw [getTimer_isSome_iff, hkeys]
  refine ⟨?_, hmem, horder, ?_⟩
  · rw [horder]
    exact firstOccurrences_nodup _
  · intro op
    rw [run_snoc, step_orderNames]
    cases op with
    | start name a b =>
      simp only
      by_cases hin : name ∈ (New.run ops).orderNames
      · rw [if_pos hin, if_pos ((hmem name).mp hin)]
      · rw [if_neg hin, if_neg (fun h => hin ((hmem name).mpr h))]
    | reset => rfl
    | stop name now => rfl
    | stopAll clock => rfl
    | getDuration name now => rfl
    | getTimerStats name now => rfl
    | stats clock fmt => rfl

theorem orderNames_tests :
    (New.run [Op.start "third" 0 0, Op.start "first" 1 1, Op.stop "first" 2,
      Op.start "second" 3 3, Op.start "third" 4 4, Op.stop "third" 5]).orderNames =
        ["third", "first", "second"] ∧
    (New.run [Op.start "x" 0 0, Op.reset, Op.start "y" 1 1, Op.start "x" 2 2]).orderNames =
        ["y", "x"] := by
  decide

/-! ## Stats -/

theorem foldl_append_string (l : List String) :
    ∀ acc : String, l.foldl (fun r s => r ++ s) acc = acc ++ String.join l := by
  induction l with
  | nil => intro acc; simp [String.join]
  | cons a l ih =>
    intro acc
    unfold String.join
    rw [List.foldl_cons, List.foldl_cons, ih, ih ("" ++ a), String.empty_append,
      String.append_assoc]

theorem String_join_cons (a : String) (l : List String) :
    String.join (a :: l) = a ++ String.join l := by
  show (a :: l).foldl (fun r s => r ++ s) "" = a ++ String.join l
  rw [List.foldl_cons, foldl_append_string, String.empty_append]

/-- The builder loop of `Stats` over names that are all registered writes one line
per name, in order. -/
theorem statsLoop_lines (m : List (String × timer)) (fmt : Int → String) (names : List String) :
    (∀ name, name ∈ names → (getTimer m name).isSome = true) →
    ∀ sb : String, ∃ ts : List timer,
      List.Forall₂ (fun name t => getTimer m name = some t) names ts ∧
      names.foldl
        (fun sb name =>
          match getTimer m name with
          | none => sb
          | some t =>
            if t.count ≤ 1 then
              sb ++ ("  " ++ name ++ ": " ++ fmt t.duration ++ "\n")
            else
              let avg := Int.tdiv t.duration t.count
              sb ++ ("  " ++ name ++ ": count=" ++ toString t.count ++ ", total=" ++
                fmt t.duration ++ ", avg=" ++ fmt avg ++ "\n"))
        sb = sb ++ String.join (List.zipWith (reportLine fmt) names ts) := by
  induction names with
  | nil =>
    intro _ sb
    exact ⟨[], List.Forall₂.nil, by simp [String.join]⟩
  | cons name names ih =>
    intro hall sb
    have hsome := hall name (List.mem_cons_self name names)
    obtain ⟨t, ht⟩ := Option.isSome_iff_exists.mp hsome
    have hrest : ∀ n, n ∈ names → (getTimer m n).isSome = true :=
      fun n hn => hall n (List.mem_cons_of_mem name hn)
    obtain ⟨ts, hts, hfold⟩ := ih hrest (sb ++ reportLine fmt name t)
    refine ⟨t :: ts, List.Forall₂.cons ht hts, ?_⟩
    rw [List.foldl_cons, List.zipWith_cons_cons, String_join_cons, ← String.append_assoc,
      ← hfold]
    congr 1
    rw [ht]
    unfold reportLine
    by_cases hc : t.count ≤ 1
    · simp only [hc, if_true]
    · simp only [hc, if_false]

/-- C16: in every registry reached from `New()`, `Stats()` first finalizes the running
timers as `StopAll` does and then returns the header line `Stopwatch Results:`
followed by exactly one line per registered name, in the order of the names' first
`Start`; the line of a timer with count at most 1 shows name and total, the line of
a timer with count above 1 shows name, count, total and average `total / count`
(`reportLine`). -/
theorem Stats_report (ops : List Op) (clock : String → Int) (fmt : Int → String) :
    ((New.run ops).Stats clock fmt).1 = ((New.run ops).StopAll clock).1 ∧
    (New.run ops).orderNames = firstOccurrences (startedSinceReset ops) ∧
    (New.run ops).orderNames.Nodup ∧
    (∀ name, name ∈ (New.run ops).orderNames ↔
      (getTimer (New.run ops).timers name).isSome = true) ∧
    ∃ ts : List timer,
      List.Forall₂
        (fun name t => getTimer ((New.run ops).StopAll clock).1.timers name = some t)
        (New.run ops).orderNames ts ∧
      ((New.run ops).Stats clock fmt).2 =
        "Stopwatch Results:\n" ++
          String.join (List.zipWith (reportLine fmt) (New.run ops).orderNames ts) := by
  obtain ⟨hkeys, horder⟩ := run_invariant ops
  have hmem : ∀ name, name ∈ (New.run ops).orderNames ↔
      (getTimer (New.run ops).timers name).isSome = true := by
    intro name
    rw [getTimer_isSome_iff, hkeys]
  refine ⟨rfl, horder, ?_, hmem, ?_⟩
  · rw [horder]
    exact firstOccurrences_nodup _
  · have hall : ∀ name, name ∈ (New.run ops).orderNames →
        (getTimer ((New.run ops).StopAll clock).1.timers name).isSome = true := by
      intro name hin
      rw [getTimer_isSome_iff, StopAll_keys, hkeys]
      exact hin
    exact statsLoop_lines ((New.run ops).StopAll clock).1.timers fmt
      (New.run ops).orderNames hall "Stopwatch Results:\n"

theorem Stats_tests :
    ((New.run [Op.start "third" 0 0, Op.start "first" 1 1, Op.start "second" 2 2,
        Op.stop "first" 5]).Stats (fun _ => 10) fmtNanos).2 =
      "Stopwatch Results:\n  third: 10ns\n  first: 4ns\n  second: 8ns\n" ∧
    ((New.run [Op.start "m" 0 0, Op.stop "m" 3, Op.start "m" 5 5, Op.stop "m" 10,
        Op.start "k" 11 11]).Stats (fun _ => 20) fmtNanos).2 =
      "Stopwatch Results:\n  m: count=2, total=8ns, avg=4ns\n  k: 9ns\n" := by
  decide

/-- C19: `Stats()` does not hold the registry lock: it calls `StopAll()`, which
locks and unlocks, and then runs its builder loop (`statsReport`) with the lock free.
In the schedule evaluated here another caller's `Start("b")` runs between the two
parts: the report lists `b`, which is still running when the report is built, whereas
after a `Stats()` run without interruption no timer is running. -/
theorem Stats_interleaved_Start :
    (((New.Start "a" 0 0).StopAll fun _ => 10).1.Start "b" 20 20).statsReport fmtNanos =
      "Stopwatch Results:\n  a: 10ns\n  b: 0ns\n" ∧
    (getTimer (((New.Start "a" 0 0).StopAll fun _ => 10).1.Start "b" 20 20).timers "b").map
      timer.running = some true ∧
    ((New.Start "a" 0 0).Stats (fun _ => 10) fmtNanos).2 =
      "Stopwatch Results:\n  a: 10ns\n" ∧
    (getTimer (((New.Start "a" 0 0).Start "b" 20 20).Stats (fun _ => 20) fmtNanos).1.timers
      "b").map timer.running = some false := by
  decide

end Gokit
